import Mathlib

/-!
Verification of the trunk-os control plane core against its specification.

Shallow embedding of:
* the two-pass template engine (`charon/src/globals.rs`, `charon/src/prompt.rs`),
* templated-input resolution (`charon/src/input.rs`),
* the vayama migration engine (`vayama/src/migration.rs`, the `Migrator`
  consumed by `buckle/src/migration/plan.rs`),
* package titles and the registry (`charon/src/package.rs`),
* the container launcher (`charon/src/cli/mod.rs`),
* package deprovision (`charon/src/package.rs`),
* the ZFS listing (`buckle/src/zfs.rs`).

Rust `String` values scanned character by character are modelled as `List Char`
(the Rust code iterates `s.chars()`); strings that are only compared or
concatenated are modelled as Lean `String`.
-/

namespace Trunk

/-! ## Template engine (charon/src/globals.rs `Global::template`,
charon/src/prompt.rs `PromptParser::template`)

Both source functions are the same one-delimiter state machine, duplicated in
the source with delimiter `'@'` (globals) and `'?'` (prompts) and with a
different lookup.  We embed the machine once, parameterised by the lookup
`find` and the delimiter, and instantiate it twice exactly as the source does.

Machine state: `inside` (are we between delimiters), `tmp` (the accumulated
key), `out` (the output so far); these are the three `let mut` locals of the
source. -/

structure TmplState where
  inside : Bool
  tmp : List Char
  out : List Char
  deriving Repr, DecidableEq

/-- One iteration of the `for ch in s.chars()` loop body.  The error carries
the unmatched key (the source returns
`Err(anyhow!("No response matches prompt ..."))`). -/
def tmplStep (find : List Char → Option (List Char)) (delim : Char)
    (st : TmplState) (ch : Char) : Except (List Char) TmplState :=
  if st.inside = true ∧ ch = delim then
    -- `inside && ch == DELIMITER`
    if st.tmp = [] then
      -- doubled delimiter: emit a literal delimiter, not a template
      .ok { st with inside := false, out := st.out ++ [delim] }
    else
      match find st.tmp with
      | some value => .ok { inside := false, tmp := [], out := st.out ++ value }
      | none => .error st.tmp
  else if ch = delim then
    .ok { st with inside := true }
  else if st.inside = true then
    .ok { st with tmp := st.tmp ++ [ch] }
  else
    .ok { st with out := st.out ++ [ch] }

/-- The whole `for` loop. -/
def tmplRun (find : List Char → Option (List Char)) (delim : Char)
    (cs : List Char) (st : TmplState) : Except (List Char) TmplState :=
  match cs with
  | [] => .ok st
  | ch :: rest =>
    match tmplStep find delim st ch with
    | .ok st' => tmplRun find delim rest st'
    | .error e => .error e

/-- The fix-up after the loop: `if inside { out += DELIMITER + tmp }`. -/
def tmplFinish (delim : Char) (st : TmplState) : List Char :=
  if st.inside = true then st.out ++ delim :: st.tmp else st.out

/-- The full template pass over a string. -/
def templateWith (find : List Char → Option (List Char)) (delim : Char)
    (cs : List Char) : Except (List Char) (List Char) :=
  match tmplRun find delim cs ⟨false, [], []⟩ with
  | .ok st => .ok (tmplFinish delim st)
  | .error e => .error e

/-- `type Variables = HashMap<String, String>`; the source looks a key up by
iterating the map entries and taking the first whose key equals the
accumulated `tmp` (HashMap keys are unique, so this is first-match lookup). -/
abbrev Variables := List (List Char × List Char)

def lookupVar : Variables → List Char → Option (List Char)
  | [], _ => none
  | (key, value) :: rest, k => if key = k then some value else lookupVar rest k

/-- `Global { name, variables }` (charon/src/globals.rs).  The second field is
called `variables` in the source; Lean reserves that token, so it is `vars`
here. -/
structure Global where
  name : List Char
  vars : Variables

/-- `Global::template`, delimiter `'@'`, lookup in the global variables. -/
def Global.template (g : Global) (s : List Char) : Except (List Char) (List Char) :=
  templateWith (lookupVar g.vars) '@' s

/-- `Input` (charon/src/input.rs): `Integer(u64)`, `SignedInteger(i64)`,
`String(String)`, `Boolean(bool)`. -/
inductive Input where
  | integer (x : Nat)
  | signedInteger (x : Int)
  | str (s : List Char)
  | boolean (b : Bool)
  deriving Repr, DecidableEq

/-- `Display for Input`: each variant renders with Rust's `to_string`. -/
def Input.render : Input → List Char
  | .integer x => (toString x).data
  | .signedInteger x => (toString x).data
  | .str s => s
  | .boolean b => (toString b).data

/-- `PromptResponse { template, input }` (charon/src/prompt.rs). -/
structure PromptResponse where
  template : List Char
  input : Input
  deriving Repr, DecidableEq

/-- The `for response in &responses.0` search in `PromptParser::template`:
first response whose `template` equals the key, rendered with `to_string`. -/
def lookupResponse : List PromptResponse → List Char → Option (List Char)
  | [], _ => none
  | r :: rest, k => if r.template = k then some r.input.render else lookupResponse rest k

/-- `PromptParser::template`, delimiter `'?'`, lookup in the prompt responses.
(The parser's own `PromptCollection` is not consulted by `template`; only the
`responses` argument is.) -/
def PromptParser.template (responses : List PromptResponse) (s : List Char) :
    Except (List Char) (List Char) :=
  templateWith (lookupResponse responses) '?' s

/-! ## Templated-input resolution (charon/src/input.rs `TemplatedInput::output`)

`output` runs the globals pass on the raw input, the prompts pass on the
entire result, and then `parse`s into the declared scalar type (`u16`, `u64`,
`i64`, `bool`, `String` via `FromStr`).  The parser of the declared type is
the parameter `parse`. -/

def TemplatedInput.output {α : Type} (parse : List Char → Except (List Char) α)
    (g : Global) (responses : List PromptResponse) (input : List Char) :
    Except (List Char) α :=
  match g.template input with
  | .error e => .error e
  | .ok s1 =>
    match PromptParser.template responses s1 with
    | .error e => .error e
    | .ok s2 => parse s2

/-! ## Migration engine (vayama/src/migration.rs)

This models the runtime-state `Migrator` of `vayama/src/migration.rs` — the
version consumed by `buckle/src/migration/plan.rs` (three-argument
`Migrator::new_with_root`).  The async callables (`check`, `run`,
`post_check`) are embedded as pure transformers of the transient state
returning `Except`; `TransientState = HashMap<String, String>` is an
association list. -/

/-- `MigrationError` (vayama/src/migration.rs).  `ExitStatus` is an integer
code here. -/
inductive MigrationError where
  | Unknown
  | UnknownWithMessage (msg : String)
  | DependencyFailed (name dep : String)
  | ValidationFailed (msg : String)
  | CommandFailed (status : Int) (command : List String) (output : Option String)
  deriving Repr, DecidableEq

abbrev TransientState := List (String × String)

abbrev MigrationFunc := TransientState → Except MigrationError TransientState

/-- `MigrationState { current_state: usize, failed_migrations: BTreeSet<String> }`.
The `BTreeSet` is modelled as its ascending enumeration. -/
structure MigrationState where
  current_state : Nat
  failed_migrations : List String
  deriving Repr, DecidableEq

instance : Inhabited MigrationState := ⟨⟨0, []⟩⟩

/-- Rust's lexicographic (byte-wise, equivalently code-point-wise) strict
order on strings, on the character lists. -/
def charListLt : List Char → List Char → Bool
  | _, [] => false
  | [], _ :: _ => true
  | a :: as_, b :: bs =>
    if a < b then true
    else if b < a then false
    else charListLt as_ bs

/-- Rust `String` `<`. -/
def strLtB (a b : String) : Bool := charListLt a.data b.data

/-- Rust `str::starts_with` (byte prefix). -/
def strStartsWith (s pre : String) : Bool := pre.data.isPrefixOf s.data

/-- `BTreeSet::insert`: ordered insert, no duplicates. -/
def setInsert (x : String) : List String → List String
  | [] => [x]
  | y :: rest =>
    if x = y then y :: rest
    else if strLtB x y then x :: y :: rest
    else y :: setInsert x rest

instance exceptDecEq {ε α : Type} [DecidableEq ε] [DecidableEq α] :
    DecidableEq (Except ε α) := fun a b =>
  match a, b with
  | .ok x, .ok y =>
    match decEq x y with
    | isTrue h => isTrue (h ▸ rfl)
    | isFalse h => isFalse fun hh => h (by cases hh; rfl)
  | .error x, .error y =>
    match decEq x y with
    | isTrue h => isTrue (h ▸ rfl)
    | isFalse h => isFalse fun hh => h (by cases hh; rfl)
  | .ok _, .error _ => isFalse fun hh => Except.noConfusion hh
  | .error _, .ok _ => isFalse fun hh => Except.noConfusion hh

/-- `Migration` (vayama/src/migration.rs): named step with dependencies and
the three callables. -/
structure Migration where
  name : String
  dependencies : List String
  check : Option MigrationFunc
  run : MigrationFunc
  post_check : Option MigrationFunc

/-- `Default for Migration`: empty name and dependencies, no checks, a `run`
that returns its state unchanged. -/
instance : Inhabited Migration := ⟨⟨"", [], none, fun ts => .ok ts, none⟩⟩

/-- `Migration::execute` (vayama/src/migration.rs lines 259-294): scan the
persisted failed set for any member of the direct dependencies or of the
caller-provided `dependencies` closure; otherwise run `check`, `run`,
`post_check` in order, short-circuiting on the first error. -/
def Migration.execute (m : Migration) (st : MigrationState) (dependencies : List String)
    (ts : TransientState) : Except MigrationError TransientState :=
  match st.failed_migrations.find? (fun f => m.dependencies.contains f || dependencies.contains f) with
  | some f => .error (.DependencyFailed m.name f)
  | none =>
    let afterCheck : Except MigrationError TransientState :=
      match m.check with
      | some chk => chk ts
      | none => .ok ts
    match afterCheck with
    | .error e => .error e
    | .ok ts1 =>
      match m.run ts1 with
      | .error e => .error e
      | .ok ts2 =>
        match m.post_check with
        | some pc => pc ts2
        | none => .ok ts2

/-- One round of the `while last_len != current_len` loop body of
`Migrator::migration_dependencies`: for each dependency currently collected,
insert the dependencies of the migration of that name (if any). -/
def expandDeps (migrations : List Migration) (deps : List String) : List String :=
  deps.foldl
    (fun acc d =>
      match migrations.find? (fun m => m.name = d) with
      | some m => m.dependencies.foldl (fun acc2 dep => setInsert dep acc2) acc
      | none => acc)
    deps

/-- The `while last_len != current_len` loop: expand until a round adds
nothing.  `fuel` bounds the rounds; every round that recurses grows the set
by at least one element drawn from the finite pool of dependency mentions,
so `totalDepMentions + 1` rounds always reach the stable point the source
loop stops at. -/
def expandLoop (migrations : List Migration) : Nat → List String → List String
  | 0, deps => deps
  | fuel + 1, deps =>
    let next := expandDeps migrations deps
    if next.length = deps.length then deps else expandLoop migrations fuel next

def totalDepMentions (migrations : List Migration) : Nat :=
  migrations.foldl (fun n m => n + m.dependencies.length) 0

/-- `Migrator::migration_dependencies` (vayama/src/migration.rs lines
140-168): the transitive dependency closure of `migrations[index]`, computed
by repeated expansion until stable.  Only membership matters (no
topological order). -/
def migrationDependencies (migrations : List Migration) (index : Nat) : List String :=
  let direct := (migrations.getD index default).dependencies
  let start := direct.foldl (fun acc d => setInsert d acc) []
  expandLoop migrations (totalDepMentions migrations + 1) start

/-- Contents of one on-disk file: missing, partially written / unparseable,
or a complete serialized `MigrationState`. -/
inductive FileState where
  | absent
  | torn
  | full (s : MigrationState)
  deriving Repr, DecidableEq

/-- The two files the engine touches under its root: `vayama.state`
(primary) and `vayama.state.tmp` (temp). -/
structure MigFS where
  primary : FileState
  temp : FileState
  deriving Repr, DecidableEq

/-- `Migrator::state_from_file`: open for read and parse; a missing or
partially written file is an error. -/
def stateFromFile : FileState → Except Unit MigrationState
  | .full s => .ok s
  | _ => .error ()

/-- The micro-steps of `Migrator::persist_state` (vayama/src/migration.rs
lines 95-108) as the successive filesystem states a concurrent reader could
observe: (1) `vayama.state.tmp` is opened with truncate, (2) the serialized
state is completely written to it, (3) it is renamed onto `vayama.state`
(the rename is the single atomic step that touches the primary). -/
def persistSteps (s : MigrationState) (fs : MigFS) : List MigFS :=
  [{ fs with temp := .torn },
   { fs with temp := .full s },
   { primary := .full s, temp := .absent }]

/-- The filesystem after `persist_state` returns. -/
def persistFS (s : MigrationState) (fs : MigFS) : MigFS :=
  (persistSteps s fs).getLastD fs

/-- The state-loading expression of `Migrator::new_with_root` (lines 65-71):
read the primary, fall back to the temp file, fall back to the default. -/
def loadStateFS (fs : MigFS) : MigrationState :=
  match stateFromFile fs.primary with
  | .ok s => s
  | .error _ =>
    match stateFromFile fs.temp with
    | .ok s => s
    | .error _ => default

/-- `Migrator` (vayama/src/migration.rs).  The `state_dir` is implicit: the
filesystem it denotes is threaded as a `MigFS` value. -/
structure Migrator where
  state : MigrationState
  runtime_state : List (String × String)
  migrations : List Migration

/-- `Migrator::new_with_root`: load (with temp fall-back and default), then
immediately persist. -/
def Migrator.newWithRoot (migrations : List Migration)
    (runtime_state : List (String × String)) (fs : MigFS) : Migrator × MigFS :=
  let st := loadStateFS fs
  let this : Migrator := ⟨st, runtime_state, migrations⟩
  (this, persistFS this.state fs)

def Migrator.moreMigrations (g : Migrator) : Bool :=
  g.state.current_state < g.migrations.length

/-- `Migrator::execute` (vayama/src/migration.rs lines 170-206): error when
no migrations remain; otherwise pre-increment the cursor, run the migration
at the old cursor against the transitive dependency closure, persist on both
outcomes, and report `some orig` on success or `none` (skipped) on failure,
inserting the failed name into the failed set. -/
def Migrator.execute (g : Migrator) (fs : MigFS) (ts : TransientState) :
    Migrator × MigFS × Except String (TransientState × Option Nat) :=
  if ¬ g.moreMigrations then
    (g, fs, .error "current state is greater than migrations length")
  else
    let deps := migrationDependencies g.migrations g.state.current_state
    let m := g.migrations.getD g.state.current_state default
    let orig := g.state.current_state
    let st1 : MigrationState := { g.state with current_state := orig + 1 }
    match m.execute st1 deps ts with
    | .ok ts2 =>
      let g2 : Migrator := { g with state := st1 }
      (g2, persistFS g2.state fs, .ok (ts2, some orig))
    | .error _ =>
      let st2 : MigrationState :=
        { st1 with failed_migrations := setInsert m.name st1.failed_migrations }
      let g2 : Migrator := { g with state := st2 }
      (g2, persistFS g2.state fs, .ok (ts, none))

/-- `Migrator::execute_failed` (vayama/src/migration.rs lines 110-138): walk
all migrations in order; re-run those whose name is in the snapshot of the
failed set, removing the name on success and keeping it on failure; persist
once at the end. -/
def Migrator.executeFailed (g : Migrator) (fs : MigFS) (ts : TransientState) :
    Migrator × MigFS × TransientState :=
  let failedSnapshot := g.state.failed_migrations
  let step := fun (acc : MigrationState × TransientState) (p : Nat × Migration) =>
    if failedSnapshot.contains p.2.name then
      let deps := migrationDependencies g.migrations p.1
      match p.2.execute acc.1 deps acc.2 with
      | .ok ts2 => ({ acc.1 with failed_migrations := acc.1.failed_migrations.erase p.2.name }, ts2)
      | .error _ => acc
    else acc
  let res := g.migrations.enum.foldl step (g.state, ts)
  let g2 : Migrator := { g with state := res.1 }
  (g2, persistFS g2.state fs, res.2)

/-- On-disk / in-memory agreement: the primary state file holds exactly the
serialized in-memory state. -/
def agrees (g : Migrator) (fs : MigFS) : Prop :=
  fs.primary = .full g.state

/-! ## Package titles and the compiled package (charon/src/package.rs) -/

/-- `PackageTitle { name, version }`. -/
structure PackageTitle where
  name : String
  version : String
  deriving Repr, DecidableEq

/-- `Display for PackageTitle`: `format!("{}-{}", name, version)`. -/
def PackageTitle.display (t : PackageTitle) : String :=
  t.name ++ "-" ++ t.version

/-- Rust's `Ord for String` (lexicographic), as a three-way comparison. -/
def strCompare (a b : String) : Ordering :=
  if strLtB a b then .lt else if a = b then .eq else .gt

/-- `Ord for PackageTitle` (charon/src/package.rs lines 422-430): compare
names; on a tie, compare versions with the same `String` ordering. -/
def PackageTitle.cmp (a b : PackageTitle) : Ordering :=
  match strCompare a.name b.name with
  | .eq => strCompare a.version b.version
  | x => x

/-- `CompiledSource`: `url` (VM image) or `container` (image reference). -/
inductive CompiledSource where
  | URL (u : String)
  | Container (image : String)
  deriving Repr, DecidableEq

structure CompiledNetworking where
  forward_ports : List (Nat × Nat)
  expose_ports : List (Nat × Nat)
  internal_network : Option String
  hostname : Option String
  deriving Repr, DecidableEq

/-- `CompiledVolume`; the last field is called `private` in the source
(Lean reserves the token). -/
structure CompiledVolume where
  name : String
  size : Nat
  mountpoint : Option String
  recreate : Bool
  privateFlag : Bool
  deriving Repr, DecidableEq

structure CompiledStorage where
  volumes : List CompiledVolume
  deriving Repr, DecidableEq

structure CompiledSystem where
  host_pid : Bool
  host_net : Bool
  capabilities : List String
  privileged : Bool
  deriving Repr, DecidableEq

structure CompiledResources where
  cpus : Nat
  memory : Nat
  deriving Repr, DecidableEq

/-- `CompiledPackage` (the private `root` annotation is irrelevant to the
launcher and deprovision and is omitted). -/
structure CompiledPackage where
  title : PackageTitle
  description : String
  dependencies : List PackageTitle
  source : CompiledSource
  networking : CompiledNetworking
  storage : CompiledStorage
  system : CompiledSystem
  resources : CompiledResources
  deriving Repr, DecidableEq

/-! ## Container launcher (charon/src/cli/mod.rs `generate_container_command`) -/

/-- The `for (hostport, localport) in ports { cmd.append(["-p", "h:g"]) }`
loops. -/
def portArgs (ports : List (Nat × Nat)) : List String :=
  ports.foldr (fun pr acc => ["-p", toString pr.1 ++ ":" ++ toString pr.2] ++ acc) []

/-- The volume loop: one `-v root/name:mountpoint:rshared` per volume with a
mountpoint; volumes without mountpoints are block devices and are skipped. -/
def volumeArgs (volume_root : String) (volumes : List CompiledVolume) : List String :=
  volumes.foldr
    (fun v acc =>
      match v.mountpoint with
      | some mp => ["-v", volume_root ++ "/" ++ v.name ++ ":" ++ mp ++ ":rshared"] ++ acc
      | none => acc)
    []

/-- The `--cap-add` loop. -/
def capArgs (caps : List String) : List String :=
  caps.foldr (fun c acc => ["--cap-add", c] ++ acc) []

/-- `generate_container_command` (charon/src/cli/mod.rs lines 234-316). -/
def generate_container_command (p : CompiledPackage) (volume_root : String) :
    Except String (List String) :=
  let cmd := ["podman", "run", "--rm", "--name", p.title.display]
  let cmd := cmd ++ (match p.networking.hostname with
    | some h => ["--hostname", h]
    | none => [])
  let cmd := cmd ++ (match p.networking.internal_network with
    | some n => ["--network", n]
    | none => [])
  let cmd := cmd ++ portArgs p.networking.forward_ports
  let cmd := cmd ++ portArgs p.networking.expose_ports
  let cmd := cmd ++ volumeArgs volume_root p.storage.volumes
  match p.source with
  | .URL _ => .error "Genuinely curious how you got here, not gonna lie"
  | .Container image =>
    let cmd := cmd ++ (if p.system.host_pid then ["--pid", "host"] else [])
    let cmd := cmd ++ (if p.system.host_net && p.networking.internal_network.isNone
      then ["--network", "host"] else [])
    let cmd := cmd ++ (if p.system.privileged then ["--privileged"] else [])
    let cmd := cmd ++ capArgs p.system.capabilities
    .ok (cmd ++ [image])

/-- Two given strings appearing as adjacent elements of an argv. -/
def hasAdjacentPair (x y : String) : List String → Bool
  | a :: b :: rest => (a == x && b == y) || hasAdjacentPair x y (b :: rest)
  | _ => false

/-! ## Uninstall / deprovision (charon/src/package.rs `CompiledPackage::deprovision`)

The systemd/ZFS side effects are embedded as a trace of events; the
`unit_info` polling loop consumes an oracle list of responses (`none` models
`Err(_)`, the unit having become unknown) and the `zfs destroy` calls
consult a success oracle. -/

/-- `LastRunState` (buckle/src/systemd.rs). -/
inductive LastRunState where
  | Dead
  | Failed
  | Exited
  | Active
  | Mounted
  | Running
  | Plugged
  | Waiting
  | Listening
  deriving Repr, DecidableEq

/-- The `Dead | Failed | Exited => break` arm of the deprovision wait loop. -/
def LastRunState.stopsWait : LastRunState → Bool
  | .Dead => true
  | .Failed => true
  | .Exited => true
  | _ => false

inductive DeprovEvent where
  | stopUnit (unit : String)
  | pollUnit (result : Option LastRunState)
  | sleep100ms
  | destroyVolume (name : String)
  | destroyRootDataset (name : String)
  deriving Repr, DecidableEq

/-- The `'wait: loop` of `deprovision`: poll `unit_info`; break on
`Dead｜Failed｜Exited` or on error (unit unknown); otherwise sleep 100 ms and
poll again.  `none` overall means the oracle was exhausted without a
terminal observation — the loop never exits and nothing further happens. -/
def waitLoop : List (Option LastRunState) → Option (List DeprovEvent)
  | [] => none
  | r :: rest =>
    match r with
    | none => some [.pollUnit none]
    | some s =>
      if s.stopsWait then some [.pollUnit (some s)]
      else
        match waitLoop rest with
        | none => none
        | some evs => some (.pollUnit (some s) :: .sleep100ms :: evs)

/-- The `for volume in &self.storage.volumes { destroy(...)? }` loop: destroy
`pkg/volume` for every volume in order, stopping at the first failure (the
`?` early-returns). Returns the emitted events and whether all succeeded. -/
def destroyVolumes (destroyOk : String → Bool) (pkg : String) :
    List String → List DeprovEvent × Bool
  | [] => ([], true)
  | v :: rest =>
    let full := pkg ++ "/" ++ v
    if destroyOk full then
      let r := destroyVolumes destroyOk pkg rest
      (.destroyVolume full :: r.1, r.2)
    else ([.destroyVolume full], false)

/-- `CompiledPackage::deprovision` (charon/src/package.rs lines 353-384) as
an event trace: stop the unit (result ignored), run the wait loop, destroy
the per-volume entities, then destroy the package root dataset.  The second
component is whether the final destroy chain succeeded. -/
def CompiledPackage.deprovision (p : CompiledPackage) (polls : List (Option LastRunState))
    (destroyOk : String → Bool) : Option (List DeprovEvent × Bool) :=
  match waitLoop polls with
  | none => none
  | some wevs =>
    let r := destroyVolumes destroyOk p.title.name (p.storage.volumes.map (fun v => v.name))
    if r.2 then
      some (.stopUnit (p.title.display ++ ".service") :: wevs ++ r.1
          ++ [.destroyRootDataset p.title.name],
        destroyOk p.title.name)
    else
      some (.stopUnit (p.title.display ++ ".service") :: wevs ++ r.1, false)

/-! ## ZFS listing (buckle/src/zfs.rs `Pool::list`)

`controller.list()` output is the `datasets` map as a list of
`(map key, item)` pairs; `controller.get` is the property oracle (already
specialised to the pool). -/

structure ZFSListItemProperties where
  used : Nat
  available : Nat
  referenced : Nat
  mountpoint : String
  deriving Repr, DecidableEq

structure ZFSListItem where
  name : String
  typ : String
  pool : String
  createtxg : Nat
  properties : ZFSListItemProperties
  deriving Repr, DecidableEq

inductive ZFSKind where
  | Dataset
  | Volume
  deriving Repr, DecidableEq

structure ZFSStat where
  kind : ZFSKind
  name : String
  full_name : String
  size : Nat
  used : Nat
  avail : Nat
  refer : Nat
  mountpoint : Option String
  deriving Repr, DecidableEq

/-- The three `continue`s of the listing loop: the filter check (on
`item.name`), the pool-prefix check (on the map key), and the root-entry
check. -/
def skipEntry (pool : String) (filter : Option String) (name : String)
    (item : ZFSListItem) : Bool :=
  (match filter with
   | some f => !(strStartsWith item.name (pool ++ "/" ++ f))
   | none => false)
  || !(strStartsWith name pool)
  || name == pool

/-- `name.strip_prefix(format!("{}/", self.name)).unwrap_or(&name)`. -/
def stripPoolName (pool name : String) : String :=
  if strStartsWith name (pool ++ "/") then name.drop (pool ++ "/").length else name

/-- `quota.unwrap_or_default()` of the `quota` property. -/
def quotaOrZero (get : String → String → Except String Nat) (shortName : String) : Nat :=
  match get shortName "quota" with
  | .ok q => q
  | .error _ => 0

/-- `Pool::list` (buckle/src/zfs.rs lines 350-425): size is `volsize` for a
volume; for a dataset it is `quota` when non-zero, else `available`.  Any
property-get failure aborts the whole listing (as the early `return Err`
does). -/
def Pool.list (pool : String) (get : String → String → Except String Nat)
    (filter : Option String) : List (String × ZFSListItem) → Except String (List ZFSStat)
  | [] => .ok []
  | (name, item) :: rest =>
    if skipEntry pool filter name item then Pool.list pool get filter rest
    else
      let shortName := stripPoolName pool name
      let sizeRes : Except String Nat :=
        if item.typ = "VOLUME" then get shortName "volsize"
        else if quotaOrZero get shortName ≠ 0 then .ok (quotaOrZero get shortName)
        else get shortName "available"
      match sizeRes with
      | .error e => .error e
      | .ok size =>
        match Pool.list pool get filter rest with
        | .error e => .error e
        | .ok tail =>
          .ok ({ kind := if item.typ = "VOLUME" then .Volume else .Dataset,
                 name := shortName,
                 full_name := name,
                 size := size,
                 used := item.properties.used,
                 avail := item.properties.available,
                 refer := item.properties.referenced,
                 mountpoint := if item.properties.mountpoint = "-" then none
                   else some item.properties.mountpoint } :: tail)

/-! ## Registry listing (charon/src/package.rs `Registry::list`) -/

structure PackageStatus where
  title : PackageTitle
  installed : Bool
  deriving Repr, DecidableEq

/-- The registry tree relevant to `list`: for each `packages/<name>`
directory the version stems of its `<version>.json` files (`file_stem`
strips the trailing `.json`), plus the result of `Registry::installed()`. -/
structure RegistryFS where
  packages : List (String × List String)
  installedTitles : List PackageTitle

/-- `items.sort()` compares the `packages/<name>` paths, which under a
common parent is comparing the names. -/
def dirLe (a b : String × List String) : Prop := strLtB b.1 a.1 = false

instance : DecidableRel dirLe :=
  fun a b => inferInstanceAs (Decidable (strLtB b.1 a.1 = false))

/-- `inner.sort()` compares the `<version>.json` file names, not the bare
version stems. -/
def verFileLe (a b : String) : Prop := strLtB (b ++ ".json") (a ++ ".json") = false

instance : DecidableRel verFileLe :=
  fun a b => inferInstanceAs (Decidable (strLtB (b ++ ".json") (a ++ ".json") = false))

/-- The `installed.iter().find(...)` check on a listed title. -/
def isInstalled (installedTitles : List PackageTitle) (name version : String) : Bool :=
  (installedTitles.find? (fun x => x.name == name && x.version == version)).isSome

/-- One directory's contribution to `list`: the sorted version files walked
in reverse (`inner.iter().rev()`), each read back as its stem. -/
def listVersions (installedTitles : List PackageTitle) (name : String)
    (stems : List String) : List PackageStatus :=
  (List.insertionSort verFileLe stems).reverse.map
    (fun version => ⟨⟨name, version⟩, isInstalled installedTitles name version⟩)

/-- `Registry::list` (charon/src/package.rs lines 705-760). -/
def registryList (reg : RegistryFS) : List PackageStatus :=
  (List.insertionSort dirLe reg.packages).foldr
    (fun item acc => listVersions reg.installedTitles item.1 item.2 ++ acc) []

/-! ## Source packages and the registry write/load round trip
(charon/src/package.rs `Registry::write`, `SourcePackage::from_file`)

`Registry::write` stores `serde_json::to_writer_pretty` output at
`packages/<name>/<version>.json` (via temp+rename); `from_file` parses it
back and sets `root`.  The JSON data model is embedded as a small AST
(`Json`); the encoders follow the serde derives field by field
(declaration order, `skip_serializing_if = "Option::is_none"` attributes,
the `#[serde(skip)]` on `root`, enum renames), and the decoders read fields
by name with serde's treatment of `Option` (absent or `null` means
`None`). -/

inductive Json where
  | null
  | str (s : String)
  | arr (items : List Json)
  | obj (fields : List (String × Json))

/-- `TemplatedInput<T>`: serialized as the bare input string (the phantom
type parameter does not affect serialization). -/
structure TemplatedInput where
  input : String
  deriving Repr, DecidableEq

/-- `InputType` with its serde renames. -/
inductive InputType where
  | integer
  | signedInteger
  | string
  | boolean
  deriving Repr, DecidableEq

/-- `Prompt { template, question, input_type }`. -/
structure Prompt where
  template : String
  question : String
  input_type : InputType
  deriving Repr, DecidableEq

/-- `Source`: `url` (VM image) or `container` (image reference). -/
inductive Source where
  | URL (u : TemplatedInput)
  | Container (c : TemplatedInput)
  deriving Repr, DecidableEq

structure Networking where
  forward_ports : Option (List (TemplatedInput × TemplatedInput))
  expose_ports : Option (List (TemplatedInput × TemplatedInput))
  internal_network : Option TemplatedInput
  hostname : Option TemplatedInput
  deriving Repr, DecidableEq

/-- `Volume`; the last field is called `private` in the source. -/
structure Volume where
  name : TemplatedInput
  size : TemplatedInput
  mountpoint : Option TemplatedInput
  recreate : TemplatedInput
  privateFlag : TemplatedInput
  deriving Repr, DecidableEq

structure Storage where
  volumes : List Volume
  deriving Repr, DecidableEq

structure System where
  host_pid : TemplatedInput
  host_net : TemplatedInput
  capabilities : List TemplatedInput
  privileged : TemplatedInput
  deriving Repr, DecidableEq

structure Resources where
  cpus : TemplatedInput
  memory : TemplatedInput
  deriving Repr, DecidableEq

/-- `SourcePackage`.  `root` carries `#[serde(skip)]`: it is not serialized
and deserializes to its default `None`; `from_file` then sets it to the
registry root. -/
structure SourcePackage where
  title : PackageTitle
  description : String
  dependencies : Option (List PackageTitle)
  source : Source
  networking : Option Networking
  storage : Option Storage
  system : Option System
  resources : Option Resources
  prompts : Option (List Prompt)
  root : Option String
  deriving Repr, DecidableEq

def encTI (t : TemplatedInput) : Json := .str t.input

/-- An `Option` field without `skip_serializing_if` ( `Volume.mountpoint` ):
`None` serializes as `null`. -/
def encOptTI : Option TemplatedInput → Json
  | some t => encTI t
  | none => .null

def encTitle (t : PackageTitle) : Json :=
  .obj [("name", .str t.name), ("version", .str t.version)]

def encSource : Source → Json
  | .URL t => .obj [("url", encTI t)]
  | .Container t => .obj [("container", encTI t)]

/-- A field with `skip_serializing_if = "Option::is_none"`. -/
def optField {α : Type} (k : String) (enc : α → Json) : Option α → List (String × Json)
  | some a => [(k, enc a)]
  | none => []

def encPortPair (p : TemplatedInput × TemplatedInput) : Json :=
  .arr [encTI p.1, encTI p.2]

def encNetworking (n : Networking) : Json :=
  .obj (optField "forward_ports" (fun l => .arr (l.map encPortPair)) n.forward_ports
    ++ optField "expose_ports" (fun l => .arr (l.map encPortPair)) n.expose_ports
    ++ optField "internal_network" encTI n.internal_network
    ++ optField "hostname" encTI n.hostname)

def encVolume (v : Volume) : Json :=
  .obj [("name", encTI v.name), ("size", encTI v.size),
    ("mountpoint", encOptTI v.mountpoint),
    ("recreate", encTI v.recreate), ("private", encTI v.privateFlag)]

def encStorage (s : Storage) : Json :=
  .obj [("volumes", .arr (s.volumes.map encVolume))]

def encSystem (s : System) : Json :=
  .obj [("host_pid", encTI s.host_pid), ("host_net", encTI s.host_net),
    ("capabilities", .arr (s.capabilities.map encTI)),
    ("privileged", encTI s.privileged)]

def encResources (r : Resources) : Json :=
  .obj [("cpus", encTI r.cpus), ("memory", encTI r.memory)]

def encInputType : InputType → Json
  | .integer => .str "integer"
  | .signedInteger => .str "signed_integer"
  | .string => .str "string"
  | .boolean => .str "boolean"

def encPrompt (p : Prompt) : Json :=
  .obj [("template", .str p.template), ("question", .str p.question),
    ("input_type", encInputType p.input_type)]

def encSourcePackage (p : SourcePackage) : Json :=
  .obj ([("title", encTitle p.title), ("description", .str p.description)]
    ++ optField "dependencies" (fun l => .arr (l.map encTitle)) p.dependencies
    ++ [("source", encSource p.source)]
    ++ optField "networking" encNetworking p.networking
    ++ optField "storage" encStorage p.storage
    ++ optField "system" encSystem p.system
    ++ optField "resources" encResources p.resources
    ++ optField "prompts" (fun l => .arr (l.map encPrompt)) p.prompts)

def getField : List (String × Json) → String → Option Json
  | [], _ => none
  | (k, v) :: rest, key => if k = key then some v else getField rest key

def decStr : Json → Option String
  | .str s => some s
  | _ => none

def decTI (j : Json) : Option TemplatedInput :=
  (decStr j).map TemplatedInput.mk

def decList {α : Type} (dec : Json → Option α) : List Json → Option (List α)
  | [] => some []
  | j :: rest =>
    match dec j, decList dec rest with
    | some a, some as_ => some (a :: as_)
    | _, _ => none

def decArr {α : Type} (dec : Json → Option α) : Json → Option (List α)
  | .arr items => decList dec items
  | _ => none

def Json.isNull : Json → Bool
  | .null => true
  | _ => false

/-- Serde's handling of an `Option` field: absent or `null` is `None`. -/
def decOptField {α : Type} (fields : List (String × Json)) (k : String)
    (dec : Json → Option α) : Option (Option α) :=
  match getField fields k with
  | none => some none
  | some j => if j.isNull then some none else (dec j).map some

def decTitle : Json → Option PackageTitle
  | .obj fields =>
    match getField fields "name", getField fields "version" with
    | some (.str n), some (.str v) => some ⟨n, v⟩
    | _, _ => none
  | _ => none

def decSource : Json → Option Source
  | .obj fields =>
    match fields with
    | [(k, v)] =>
      if k = "url" then (decTI v).map .URL
      else if k = "container" then (decTI v).map .Container
      else none
    | _ => none
  | _ => none

def decPortPair : Json → Option (TemplatedInput × TemplatedInput)
  | .arr [a, b] =>
    match decTI a, decTI b with
    | some x, some y => some (x, y)
    | _, _ => none
  | _ => none

def decNetworking : Json → Option Networking
  | .obj fields =>
    match decOptField fields "forward_ports" (decArr decPortPair),
        decOptField fields "expose_ports" (decArr decPortPair),
        decOptField fields "internal_network" decTI,
        decOptField fields "hostname" decTI with
    | some fp, some ep, some net, some hn => some ⟨fp, ep, net, hn⟩
    | _, _, _, _ => none
  | _ => none

def decVolume : Json → Option Volume
  | .obj fields =>
    match getField fields "name", getField fields "size",
        decOptField fields "mountpoint" decTI,
        getField fields "recreate", getField fields "private" with
    | some jn, some js, some mp, some jr, some jp =>
      match decTI jn, decTI js, decTI jr, decTI jp with
      | some n, some s, some r, some pr => some ⟨n, s, mp, r, pr⟩
      | _, _, _, _ => none
    | _, _, _, _, _ => none
  | _ => none

def decStorage : Json → Option Storage
  | .obj fields =>
    match getField fields "volumes" with
    | some jv => (decArr decVolume jv).map Storage.mk
    | none => none
  | _ => none

def decSystem : Json → Option System
  | .obj fields =>
    match getField fields "host_pid", getField fields "host_net",
        getField fields "capabilities", getField fields "privileged" with
    | some jhp, some jhn, some jc, some jp =>
      match decTI jhp, decTI jhn, decArr decTI jc, decTI jp with
      | some hp, some hn, some caps, some pr => some ⟨hp, hn, caps, pr⟩
      | _, _, _, _ => none
    | _, _, _, _ => none
  | _ => none

def decResources : Json → Option Resources
  | .obj fields =>
    match getField fields "cpus", getField fields "memory" with
    | some jc, some jm =>
      match decTI jc, decTI jm with
      | some c, some m => some ⟨c, m⟩
      | _, _ => none
    | _, _ => none
  | _ => none

def decInputType : Json → Option InputType
  | .str s =>
    if s = "integer" then some .integer
    else if s = "signed_integer" then some .signedInteger
    else if s = "string" then some .string
    else if s = "boolean" then some .boolean
    else none
  | _ => none

def decPrompt : Json → Option Prompt
  | .obj fields =>
    match getField fields "template", getField fields "question",
        getField fields "input_type" with
    | some (.str t), some (.str q), some jt =>
      (decInputType jt).map fun it => ⟨t, q, it⟩
    | _, _, _ => none
  | _ => none

def decSourcePackage : Json → Option SourcePackage
  | .obj fields =>
    match getField fields "title", getField fields "description",
        getField fields "source" with
    | some jt, some (.str d), some js =>
      match decTitle jt, decSource js,
          decOptField fields "dependencies" (decArr decTitle),
          decOptField fields "networking" decNetworking,
          decOptField fields "storage" decStorage,
          decOptField fields "system" decSystem,
          decOptField fields "resources" decResources,
          decOptField fields "prompts" (decArr decPrompt) with
      | some t, some src, some dep, some nw, some st, some sys, some res, some pr =>
        some ⟨t, d, dep, src, nw, st, sys, res, pr, none⟩
      | _, _, _, _, _, _, _, _ => none
    | _, _, _ => none
  | _ => none

/-- The package files of a registry: `packages/<name>/<version>.json`
contents, newest write first. -/
structure PackageRegistry where
  root : String
  files : List ((String × String) × Json)

def getPackageFile : List ((String × String) × Json) → String × String → Option Json
  | [], _ => none
  | (k, j) :: rest, key => if k = key then some j else getPackageFile rest key

/-- `Registry::write`: serialize the package (the `root` field is skipped)
and store it at `packages/<title.name>/<title.version>.json` (atomically,
via temp+rename; the stored value is the post-rename contents). -/
def PackageRegistry.write (reg : PackageRegistry) (p : SourcePackage) : PackageRegistry :=
  { reg with files := ((p.title.name, p.title.version), encSourcePackage p) :: reg.files }

/-- `Registry::load` = `SourcePackage::from_file`: read and parse
`packages/<name>/<version>.json`, then set `root` to the registry root. -/
def PackageRegistry.load (reg : PackageRegistry) (name version : String) : Option SourcePackage :=
  match getPackageFile reg.files (name, version) with
  | none => none
  | some j => (decSourcePackage j).map fun sp => { sp with root := some reg.root }

end Trunk

-- ========================= Theorems =========================

namespace Trunk

theorem tmplRun_append (find : List Char → Option (List Char)) (delim : Char)
    (cs ds : List Char) (st : TmplState) :
    tmplRun find delim (cs ++ ds) st =
      match tmplRun find delim cs st with
      | .ok st' => tmplRun find delim ds st'
      | .error e => .error e := by
  induction cs generalizing st with
  | nil => simp [tmplRun]
  | cons c cs ih =>
    simp only [List.cons_append, tmplRun]
    cases tmplStep find delim st c with
    | ok st' => exact ih st'
    | error e => rfl

theorem tmplStep_outside (find : List Char → Option (List Char)) (delim : Char)
    (t o : List Char) (c : Char) (hc : c ≠ delim) :
    tmplStep find delim ⟨false, t, o⟩ c = .ok ⟨false, t, o ++ [c]⟩ := by
  simp [tmplStep, hc]

theorem tmplStep_inside (find : List Char → Option (List Char)) (delim : Char)
    (t o : List Char) (c : Char) (hc : c ≠ delim) :
    tmplStep find delim ⟨true, t, o⟩ c = .ok ⟨true, t ++ [c], o⟩ := by
  simp [tmplStep, hc]

theorem tmplStep_enter (find : List Char → Option (List Char)) (delim : Char)
    (t o : List Char) :
    tmplStep find delim ⟨false, t, o⟩ delim = .ok ⟨true, t, o⟩ := by
  simp [tmplStep]

theorem tmplStep_empty_key (find : List Char → Option (List Char)) (delim : Char)
    (o : List Char) :
    tmplStep find delim ⟨true, [], o⟩ delim = .ok ⟨false, [], o ++ [delim]⟩ := by
  simp [tmplStep]

theorem tmplStep_close (find : List Char → Option (List Char)) (delim : Char)
    (t o v : List Char) (ht : t ≠ []) (hf : find t = some v) :
    tmplStep find delim ⟨true, t, o⟩ delim = .ok ⟨false, [], o ++ v⟩ := by
  simp [tmplStep, ht, hf]

/-- Outside a template, delimiter-free input is copied to the output. -/
theorem tmplRun_no_delim_outside (find : List Char → Option (List Char)) (delim : Char)
    (cs : List Char) (h : delim ∉ cs) :
    ∀ t o : List Char, tmplRun find delim cs ⟨false, t, o⟩ = .ok ⟨false, t, o ++ cs⟩ := by
  induction cs with
  | nil => intro t o; simp [tmplRun]
  | cons c cs ih =>
    intro t o
    have hc : c ≠ delim := fun hc => h (hc ▸ List.mem_cons_self c cs)
    have h' : delim ∉ cs := fun hm => h (List.mem_cons_of_mem c hm)
    simp only [tmplRun, tmplStep_outside find delim t o c hc]
    rw [ih h']
    simp

/-- Inside a template, delimiter-free input accumulates into the key. -/
theorem tmplRun_no_delim_inside (find : List Char → Option (List Char)) (delim : Char)
    (cs : List Char) (h : delim ∉ cs) :
    ∀ t o : List Char, tmplRun find delim cs ⟨true, t, o⟩ = .ok ⟨true, t ++ cs, o⟩ := by
  induction cs with
  | nil => intro t o; simp [tmplRun]
  | cons c cs ih =>
    intro t o
    have hc : c ≠ delim := fun hc => h (hc ▸ List.mem_cons_self c cs)
    have h' : delim ∉ cs := fun hm => h (List.mem_cons_of_mem c hm)
    simp only [tmplRun, tmplStep_inside find delim t o c hc]
    rw [ih h']
    simp

/-- A delimiter-free string passes through either template pass unchanged. -/
theorem templateWith_no_delim (find : List Char → Option (List Char)) (delim : Char)
    (cs : List Char) (h : delim ∉ cs) :
    templateWith find delim cs = .ok cs := by
  unfold templateWith
  rw [tmplRun_no_delim_outside find delim cs h]
  simp [tmplFinish]

/-- A delimited nonempty, delimiter-free key expands to what `find` returns. -/
theorem templateWith_key (find : List Char → Option (List Char)) (delim : Char)
    (k v : List Char) (hk : k ≠ []) (hkd : delim ∉ k) (hf : find k = some v) :
    templateWith find delim (delim :: (k ++ [delim])) = .ok v := by
  have hrun : tmplRun find delim (delim :: (k ++ [delim])) ⟨false, [], []⟩ =
      .ok ⟨false, [], v⟩ := by
    simp only [tmplRun, tmplStep_enter]
    rw [tmplRun_append, tmplRun_no_delim_inside find delim k hkd]
    simp only [List.nil_append]
    simp only [tmplRun, tmplStep_close find delim k [] v hk hf]
    simp
  unfold templateWith
  rw [hrun]
  simp [tmplFinish]

/-- A doubled delimiter collapses to a single literal delimiter. -/
theorem templateWith_doubled (find : List Char → Option (List Char)) (delim : Char) :
    templateWith find delim [delim, delim] = .ok [delim] := by
  have hrun : tmplRun find delim [delim, delim] ⟨false, [], []⟩ =
      .ok ⟨false, [], [] ++ [delim]⟩ := by
    simp only [tmplRun, tmplStep_enter, tmplStep_empty_key]
  unfold templateWith
  rw [hrun]
  simp [tmplFinish]

/-- An unterminated trailing template (`delim` plus a delimiter-free partial
key) is passed through verbatim, after any delimiter-free prefix. -/
theorem templateWith_unterminated (find : List Char → Option (List Char)) (delim : Char)
    (p k : List Char) (hp : delim ∉ p) (hk : delim ∉ k) :
    templateWith find delim (p ++ delim :: k) = .ok (p ++ delim :: k) := by
  have hrun : tmplRun find delim (p ++ delim :: k) ⟨false, [], []⟩ =
      .ok ⟨true, [] ++ k, [] ++ p⟩ := by
    rw [tmplRun_append, tmplRun_no_delim_outside find delim p hp]
    simp only [tmplRun, tmplStep_enter]
    rw [tmplRun_no_delim_inside find delim k hk]
  unfold templateWith
  rw [hrun]
  simp [tmplFinish]

/-- C1 counterexample: the claim quantifies over *every* key present in the
lookup map, but the empty key is expressible in a map while its delimited
form `@@` is the doubled-delimiter escape: with variables `{"" ↦ "x"}` the
input `@` ++ "" ++ `@` expands to the literal `@`, not to `x`. -/
theorem c1_counterexample :
    lookupVar [([], ['x'])] [] = some ['x'] ∧
    Global.template ⟨['g'], [([], ['x'])]⟩ ('@' :: (([] : List Char) ++ ['@'])) = .ok ['@'] ∧
    (['@'] : List Char) ≠ ['x'] :=
  ⟨rfl, rfl, by decide⟩

/-- C1 (amended): for both template passes (globals with delimiter `@`,
prompts with delimiter `?`): a string without the delimiter passes through
unchanged; a delimited **nonempty, delimiter-free** key present in the
lookup (globals map, resp. rendered prompt responses) expands to its mapped
value; a doubled delimiter collapses to one literal delimiter; and an input
ending inside a template (trailing delimiter plus delimiter-free partial
key) emits that tail verbatim. -/
theorem c1_template_passes_amended (g : Global) (rs : List PromptResponse) :
    (∀ s : List Char, '@' ∉ s → g.template s = .ok s) ∧
    (∀ s : List Char, '?' ∉ s → PromptParser.template rs s = .ok s) ∧
    (∀ k v : List Char, k ≠ [] → '@' ∉ k → lookupVar g.vars k = some v →
        g.template ('@' :: (k ++ ['@'])) = .ok v) ∧
    (∀ k v : List Char, k ≠ [] → '?' ∉ k → lookupResponse rs k = some v →
        PromptParser.template rs ('?' :: (k ++ ['?'])) = .ok v) ∧
    g.template ['@', '@'] = .ok ['@'] ∧
    PromptParser.template rs ['?', '?'] = .ok ['?'] ∧
    (∀ p k : List Char, '@' ∉ p → '@' ∉ k →
        g.template (p ++ '@' :: k) = .ok (p ++ '@' :: k)) ∧
    (∀ p k : List Char, '?' ∉ p → '?' ∉ k →
        PromptParser.template rs (p ++ '?' :: k) = .ok (p ++ '?' :: k)) := by
  refine ⟨fun s hs => templateWith_no_delim _ _ s hs,
    fun s hs => templateWith_no_delim _ _ s hs,
    fun k v hk hkd hf => templateWith_key _ _ k v hk hkd hf,
    fun k v hk hkd hf => templateWith_key _ _ k v hk hkd hf,
    templateWith_doubled _ _,
    templateWith_doubled _ _,
    fun p k hp hk => templateWith_unterminated _ _ p k hp hk,
    fun p k hp hk => templateWith_unterminated _ _ p k hp hk⟩

/-- C1 witness: concrete instances of the amended pass properties. -/
theorem c1_template_passes_amended_witness :
    Global.template ⟨['t'], [(['f', 'o', 'o'], ['b', 'a', 'r'])]⟩
        ('@' :: (['f', 'o', 'o'] ++ ['@'])) = .ok ['b', 'a', 'r'] ∧
    PromptParser.template [⟨['k'], .str ['v']⟩] (['a', 'b'] ++ '?' :: ['c']) =
      .ok (['a', 'b'] ++ '?' :: ['c']) :=
  ⟨(c1_template_passes_amended ⟨['t'], [(['f', 'o', 'o'], ['b', 'a', 'r'])]⟩ []).2.2.1
      ['f', 'o', 'o'] ['b', 'a', 'r'] (by decide) (by decide) (by decide),
   (c1_template_passes_amended ⟨['t'], []⟩ [⟨['k'], .str ['v']⟩]).2.2.2.2.2.2.2
      ['a', 'b'] ['c'] (by decide) (by decide)⟩

/-- C9: `TemplatedInput::output` applies the globals pass first and the
prompts pass to the globals pass's entire output, then parses with the
declared scalar type's parser; consequently a prompt reference `?k?`
introduced by a substituted global value is itself expanded by the prompts
pass before type parsing. -/
theorem c9_output_composition {α : Type} (parse : List Char → Except (List Char) α)
    (g : Global) (rs : List PromptResponse) :
    (∀ input s1, g.template input = .ok s1 →
        TemplatedInput.output parse g rs input =
          match PromptParser.template rs s1 with
          | .error e => .error e
          | .ok s2 => parse s2) ∧
    (∀ a k v : List Char, a ≠ [] → '@' ∉ a → k ≠ [] → '?' ∉ k →
        lookupVar g.vars a = some ('?' :: (k ++ ['?'])) →
        lookupResponse rs k = some v →
        TemplatedInput.output parse g rs ('@' :: (a ++ ['@'])) = parse v) := by
  have hout : ∀ input s1, g.template input = .ok s1 →
      TemplatedInput.output parse g rs input =
        match PromptParser.template rs s1 with
        | .error e => .error e
        | .ok s2 => parse s2 := by
    intro input s1 h
    unfold TemplatedInput.output
    rw [h]
  refine ⟨hout, ?_⟩
  intro a k v ha had hk hkd hfa hfk
  have h1 : g.template ('@' :: (a ++ ['@'])) = .ok ('?' :: (k ++ ['?'])) :=
    templateWith_key _ _ a _ ha had hfa
  have h2 : PromptParser.template rs ('?' :: (k ++ ['?'])) = .ok v :=
    templateWith_key _ _ k v hk hkd hfk
  rw [hout _ _ h1, h2]

/-- C9 witness: a global value that is itself a prompt reference is expanded
by the prompts pass before parsing. -/
theorem c9_output_composition_witness :
    TemplatedInput.output (fun s => .ok s) ⟨['g'], [(['a'], ['?', 'k', '?'])]⟩
      [⟨['k'], .str ['v']⟩] ('@' :: (['a'] ++ ['@'])) = .ok ['v'] :=
  (c9_output_composition (fun s => .ok s) ⟨['g'], [(['a'], ['?', 'k', '?'])]⟩
      [⟨['k'], .str ['v']⟩]).2 ['a'] ['k'] ['v']
    (by decide) (by decide) (by decide) (by decide) (by decide) (by decide)

theorem find?_of_mem {α : Type} {p : α → Bool} {l : List α} {x : α}
    (hx : x ∈ l) (hp : p x = true) : ∃ f, l.find? p = some f := by
  induction l with
  | nil => cases hx
  | cons y ys ih =>
    by_cases hy : p y = true
    · exact ⟨y, by simp [List.find?, hy]⟩
    · rcases List.mem_cons.mp hx with hxy | hxs
      · exact absurd (hxy ▸ hp) hy
      · obtain ⟨f, hf⟩ := ih hxs
        exact ⟨f, by simp [List.find?, hy, hf]⟩

/-- C2: executing a single migration fails immediately with a dependency
error when any element of the transitive dependency closure (as computed by
`migration_dependencies`, repeated expansion until stable) is in the
persisted failed set; in that case none of `check`, `run`, `post_check` is
invoked (the result is the same dependency error for *every* choice of the
three callables), and the engine-level `execute` returns the untouched
transient state with `none` (skipped). -/
theorem c2_transitive_dependency_gate (g : Migrator) (d : String)
    (ts ts' : TransientState) (fs : MigFS)
    (hd : d ∈ migrationDependencies g.migrations g.state.current_state)
    (hf : d ∈ g.state.failed_migrations) :
    (∃ f ∈ g.state.failed_migrations,
      ∀ (chk pc : Option MigrationFunc) (runf : MigrationFunc),
        Migration.execute
          { g.migrations.getD g.state.current_state default with
              check := chk, run := runf, post_check := pc }
          { g.state with current_state := g.state.current_state + 1 }
          (migrationDependencies g.migrations g.state.current_state) ts'
          = .error (.DependencyFailed
              (g.migrations.getD g.state.current_state default).name f))
    ∧ (g.moreMigrations → (g.execute fs ts).2.2 = .ok (ts, none)) := by
  set m := g.migrations.getD g.state.current_state default with hm
  set deps := migrationDependencies g.migrations g.state.current_state with hdeps
  have hpred : (fun f => m.dependencies.contains f || deps.contains f) d = true := by
    simp only [Bool.or_eq_true]
    exact Or.inr (List.elem_eq_true_of_mem hd)
  obtain ⟨f, hfind⟩ := find?_of_mem (p := fun f => m.dependencies.contains f || deps.contains f)
    hf hpred
  have hfmem : f ∈ g.state.failed_migrations := List.mem_of_find?_eq_some hfind
  constructor
  · refine ⟨f, hfmem, fun chk pc runf => ?_⟩
    unfold Migration.execute
    simp only []
    rw [show ({ m with check := chk, run := runf, post_check := pc } : Migration).dependencies
          = m.dependencies from rfl]
    rw [show ({ g.state with current_state := g.state.current_state + 1 }
          : MigrationState).failed_migrations = g.state.failed_migrations from rfl]
    rw [hfind]
  · intro hmore
    have hexec : Migration.execute m
        { g.state with current_state := g.state.current_state + 1 } deps ts
        = .error (.DependencyFailed m.name f) := by
      unfold Migration.execute
      rw [show ({ g.state with current_state := g.state.current_state + 1 }
            : MigrationState).failed_migrations = g.state.failed_migrations from rfl]
      rw [hfind]
    unfold Migrator.execute
    simp only [hmore, not_true_eq_false, if_false, ← hdeps, ← hm, hexec]

/-- C2 witness: a migration whose (direct, hence transitive) dependency "b"
is in the failed set is skipped by the engine. -/
theorem c2_transitive_dependency_gate_witness :
    ((Migrator.execute ⟨⟨0, ["b"]⟩, [], [⟨"a", ["b"], none, fun ts => .ok ts, none⟩]⟩
        ⟨.absent, .absent⟩ []).2.2 : Except String (TransientState × Option Nat))
      = .ok ([], none) :=
  (c2_transitive_dependency_gate
      ⟨⟨0, ["b"]⟩, [], [⟨"a", ["b"], none, fun ts => .ok ts, none⟩]⟩
      "b" [] [] ⟨.absent, .absent⟩ (by decide) (by decide)).2 (by decide)

/-- C3: every persist of the migration state is atomic — the micro-steps of
`persist_state` only ever touch the temp file until the final rename, so a
reader of the primary file sees either the old contents or the complete new
state, never a torn write; after persist the primary holds exactly the new
state; and loading reads the primary, falls back to the temp file when the
primary is unreadable, and defaults only when both are unreadable. -/
theorem c3_atomic_persist :
    (∀ (s : MigrationState) (fs : MigFS),
        ∀ fs' ∈ persistSteps s fs, fs'.primary = fs.primary ∨ fs'.primary = .full s) ∧
    (∀ (s : MigrationState) (fs : MigFS), fs.primary ≠ .torn →
        ∀ fs' ∈ persistSteps s fs, fs'.primary ≠ .torn) ∧
    (∀ (s : MigrationState) (fs : MigFS), (persistFS s fs).primary = .full s) ∧
    (∀ (fs : MigFS) (s : MigrationState), fs.primary = .full s → loadStateFS fs = s) ∧
    (∀ (fs : MigFS) (s : MigrationState), stateFromFile fs.primary = .error () →
        fs.temp = .full s → loadStateFS fs = s) ∧
    (∀ fs : MigFS, stateFromFile fs.primary = .error () →
        stateFromFile fs.temp = .error () → loadStateFS fs = default) := by
  refine ⟨?_, ?_, ?_, ?_, ?_, ?_⟩
  · intro s fs fs' hmem
    simp only [persistSteps, List.mem_cons, List.mem_singleton, List.not_mem_nil] at hmem
    rcases hmem with h | h | h | h
    · exact Or.inl (h ▸ rfl)
    · exact Or.inl (h ▸ rfl)
    · exact Or.inr (h ▸ rfl)
    · cases h
  · intro s fs hne fs' hmem
    simp only [persistSteps, List.mem_cons, List.mem_singleton, List.not_mem_nil] at hmem
    rcases hmem with h | h | h | h
    · exact h ▸ hne
    · exact h ▸ hne
    · subst h; simp
    · cases h
  · intro s fs; rfl
  · intro fs s h
    unfold loadStateFS
    rw [h]
    rfl
  · intro fs s hp ht
    unfold loadStateFS
    rw [hp, ht]
    rfl
  · intro fs hp ht
    unfold loadStateFS
    rw [hp, ht]

/-- C3 witness: a torn primary with a complete temp file loads the temp
contents, and persisting from any filesystem leaves the full new state in
the primary. -/
theorem c3_atomic_persist_witness :
    loadStateFS ⟨.torn, .full ⟨1, ["x"]⟩⟩ = (⟨1, ["x"]⟩ : MigrationState) ∧
    (persistFS ⟨2, []⟩ ⟨.torn, .absent⟩).primary = .full ⟨2, []⟩ :=
  ⟨c3_atomic_persist.2.2.2.2.1 ⟨.torn, .full ⟨1, ["x"]⟩⟩ ⟨1, ["x"]⟩ rfl rfl,
   c3_atomic_persist.2.2.1 ⟨2, []⟩ ⟨.torn, .absent⟩⟩

/-- C10: the runtime-state `Migrator` re-establishes on-disk/in-memory
agreement at every public operation boundary: `new_with_root` persists the
loaded-or-default state immediately (so the primary file equals the
in-memory state before any migration runs), and both `execute` (on its
success, failure and no-more-migrations paths) and `execute_failed` leave
the primary file equal to the in-memory state. -/
theorem c10_boundary_agreement :
    (∀ (migrations : List Migration) (rs : List (String × String)) (fs : MigFS),
        agrees (Migrator.newWithRoot migrations rs fs).1 (Migrator.newWithRoot migrations rs fs).2
        ∧ (Migrator.newWithRoot migrations rs fs).1.state = loadStateFS fs) ∧
    (∀ (g : Migrator) (fs : MigFS) (ts : TransientState), agrees g fs →
        agrees (g.execute fs ts).1 (g.execute fs ts).2.1) ∧
    (∀ (g : Migrator) (fs : MigFS) (ts : TransientState),
        agrees (g.executeFailed fs ts).1 (g.executeFailed fs ts).2.1) := by
  refine ⟨fun migrations rs fs => ⟨rfl, rfl⟩, ?_, fun g fs ts => rfl⟩
  intro g fs ts hag
  unfold Migrator.execute
  split
  · exact hag
  · dsimp only
    split <;> rfl

/-- C8: every entry of the ZFS listing reports as its size: for a volume the
`volsize` property; for a dataset the `quota` property when non-zero
(`unwrap_or_default`, so an unreadable quota counts as zero), else the
`available` property. -/
theorem c8_zfs_stat_size (pool : String) (get : String → String → Except String Nat)
    (filter : Option String) (datasets : List (String × ZFSListItem))
    (out : List ZFSStat) (h : Pool.list pool get filter datasets = .ok out) :
    ∀ st ∈ out,
      (st.kind = .Volume → get st.name "volsize" = .ok st.size) ∧
      (st.kind = .Dataset →
        (quotaOrZero get st.name ≠ 0 → st.size = quotaOrZero get st.name) ∧
        (quotaOrZero get st.name = 0 → get st.name "available" = .ok st.size)) := by
  induction datasets generalizing out with
  | nil =>
    simp only [Pool.list, Except.ok.injEq] at h
    subst h
    intro st hst
    cases hst
  | cons entry rest ih =>
    obtain ⟨name, item⟩ := entry
    unfold Pool.list at h
    by_cases hskip : skipEntry pool filter name item
    · rw [if_pos hskip] at h
      exact ih out h
    · rw [if_neg hskip] at h
      dsimp only at h
      cases hsz : (if item.typ = "VOLUME" then get (stripPoolName pool name) "volsize"
          else if quotaOrZero get (stripPoolName pool name) ≠ 0 then
            Except.ok (quotaOrZero get (stripPoolName pool name))
          else get (stripPoolName pool name) "available") with
      | error e => rw [hsz] at h; exact absurd h (by simp)
      | ok size =>
        rw [hsz] at h
        cases hrec : Pool.list pool get filter rest with
        | error e => rw [hrec] at h; exact absurd h (by simp)
        | ok tail =>
          rw [hrec] at h
          simp only [Except.ok.injEq] at h
          subst h
          intro st hst
          rcases List.mem_cons.mp hst with hhead | htail
          · subst hhead
            by_cases htyp : item.typ = "VOLUME"
            · rw [if_pos htyp] at hsz
              constructor
              · intro _
                simpa [htyp] using hsz
              · intro hkind
                simp [htyp] at hkind
            · rw [if_neg htyp] at hsz
              constructor
              · intro hkind
                simp [htyp] at hkind
              · intro _
                by_cases hq : quotaOrZero get (stripPoolName pool name) ≠ 0
                · rw [if_pos hq] at hsz
                  simp only [Except.ok.injEq] at hsz
                  constructor
                  · intro _
                    simp [htyp, ← hsz]
                  · intro hzero
                    exact absurd hzero (by simpa using hq)
                · rw [if_neg hq] at hsz
                  constructor
                  · intro hne
                    exact absurd (by simpa using hne) hq
                  · intro _
                    simpa [htyp] using hsz
          · exact ih tail hrec st htail

/-- C8 witness: in a concrete listing with one volume and one dataset, the
dataset entry's size is its non-zero quota. -/
theorem c8_zfs_stat_size_witness :
    (⟨.Dataset, "d", "tank/d", 9, 1, 2, 3, some "/d"⟩ : ZFSStat).size =
      quotaOrZero
        (fun n p => if n = "v" ∧ p = "volsize" then Except.ok 7
          else if n = "d" ∧ p = "quota" then Except.ok 9
          else Except.error "x")
        (⟨.Dataset, "d", "tank/d", 9, 1, 2, 3, some "/d"⟩ : ZFSStat).name :=
  ((c8_zfs_stat_size "tank"
      (fun n p => if n = "v" ∧ p = "volsize" then Except.ok 7
        else if n = "d" ∧ p = "quota" then Except.ok 9
        else Except.error "x")
      none
      [("tank/v", ⟨"tank/v", "VOLUME", "tank", 0, ⟨1, 2, 3, "-"⟩⟩),
       ("tank/d", ⟨"tank/d", "FILESYSTEM", "tank", 0, ⟨1, 2, 3, "/d"⟩⟩)]
      [⟨.Volume, "v", "tank/v", 7, 1, 2, 3, none⟩,
       ⟨.Dataset, "d", "tank/d", 9, 1, 2, 3, some "/d"⟩] (by decide)
      ⟨.Dataset, "d", "tank/d", 9, 1, 2, 3, some "/d"⟩ (by decide)).2 rfl).1 (by decide)

theorem waitLoop_spec (polls : List (Option LastRunState)) (wevs : List DeprovEvent)
    (h : waitLoop polls = some wevs) :
    (∀ e ∈ wevs, (∃ r, e = .pollUnit r) ∨ e = .sleep100ms) ∧
    ∃ r, wevs.getLast? = some (.pollUnit r) ∧
      (r = none ∨ ∃ s, r = some s ∧ s.stopsWait = true) := by
  induction polls generalizing wevs with
  | nil => exact absurd h (by simp [waitLoop])
  | cons r rest ih =>
    cases r with
    | none =>
      simp only [waitLoop, Option.some.injEq] at h
      subst h
      exact ⟨by simp, none, by simp, Or.inl rfl⟩
    | some s =>
      by_cases hs : s.stopsWait = true
      · simp only [waitLoop] at h
        rw [if_pos hs] at h
        simp only [Option.some.injEq] at h
        subst h
        exact ⟨by simp, some s, by simp, Or.inr ⟨s, rfl, hs⟩⟩
      · simp only [waitLoop] at h
        rw [if_neg hs] at h
        cases hrec : waitLoop rest with
        | none => rw [hrec] at h; exact absurd h (by simp)
        | some evs =>
          rw [hrec] at h
          simp only [Option.some.injEq] at h
          subst h
          obtain ⟨hmem, rr, hlast, hterm⟩ := ih evs hrec
          have hne : evs ≠ [] := by
            intro he
            rw [he] at hlast
            simp at hlast
          refine ⟨?_, rr, ?_, hterm⟩
          · intro e he
            rcases List.mem_cons.mp he with h1 | h1
            · exact Or.inl ⟨some s, h1⟩
            · rcases List.mem_cons.mp h1 with h2 | h2
              · exact Or.inr h2
              · exact hmem e h2
          · obtain ⟨a, as_, rfl⟩ := List.exists_cons_of_ne_nil hne
            simpa using hlast

theorem destroyVolumes_spec (destroyOk : String → Bool) (pkg : String) :
    ∀ vols : List String,
      ((destroyVolumes destroyOk pkg vols).2 = true →
        (destroyVolumes destroyOk pkg vols).1 =
          vols.map (fun v => DeprovEvent.destroyVolume (pkg ++ "/" ++ v))) ∧
      ((destroyVolumes destroyOk pkg vols).2 = false →
        ∃ k, k < vols.length ∧
          (destroyVolumes destroyOk pkg vols).1 =
            (vols.map (fun v => DeprovEvent.destroyVolume (pkg ++ "/" ++ v))).take (k + 1)) := by
  intro vols
  induction vols with
  | nil => exact ⟨fun _ => rfl, fun hfalse => by simp [destroyVolumes] at hfalse⟩
  | cons v rest ih =>
    by_cases hv : destroyOk (pkg ++ "/" ++ v) = true
    · constructor
      · intro htrue
        simp only [destroyVolumes, hv, if_pos] at htrue ⊢
        rw [ih.1 htrue]
        simp
      · intro hfalse
        simp only [destroyVolumes, hv, if_pos] at hfalse ⊢
        obtain ⟨k, hk, heq⟩ := ih.2 hfalse
        exact ⟨k + 1, by simpa using Nat.succ_lt_succ hk, by simp [heq]⟩
    · constructor
      · intro htrue
        simp [destroyVolumes, hv] at htrue
      · intro _
        refine ⟨0, by simp, ?_⟩
        simp [destroyVolumes, hv]

/-- C7: in every terminating deprovision trace, the unit is stopped first and
every storage destruction comes after a poll that observed a last-run state
in `{dead, failed, exited}` or found the unit unknown; the wait phase
consists only of poll and sleep events; and when the package root dataset is
destroyed, every per-volume entity was destroyed before it (the failure
shape destroys a prefix of the volumes and never reaches the root). -/
theorem c7_deprovision_ordering (p : CompiledPackage) (polls : List (Option LastRunState))
    (destroyOk : String → Bool) (trace : List DeprovEvent) (b : Bool)
    (h : p.deprovision polls destroyOk = some (trace, b)) :
    ∃ wevs : List DeprovEvent,
      (∀ e ∈ wevs, (∃ r, e = .pollUnit r) ∨ e = .sleep100ms) ∧
      (∃ r, wevs.getLast? = some (.pollUnit r) ∧
        (r = none ∨ ∃ s, r = some s ∧ s.stopsWait = true)) ∧
      (trace = .stopUnit (p.title.display ++ ".service") :: wevs
          ++ (p.storage.volumes.map
              (fun v => DeprovEvent.destroyVolume (p.title.name ++ "/" ++ v.name)))
          ++ [.destroyRootDataset p.title.name]
       ∨ ∃ k, k < p.storage.volumes.length ∧ b = false ∧
          trace = .stopUnit (p.title.display ++ ".service") :: wevs
            ++ ((p.storage.volumes.map
                (fun v => DeprovEvent.destroyVolume (p.title.name ++ "/" ++ v.name))).take
                (k + 1))) := by
  unfold CompiledPackage.deprovision at h
  cases hw : waitLoop polls with
  | none => rw [hw] at h; exact absurd h (by simp)
  | some wevs =>
    rw [hw] at h
    dsimp only at h
    obtain ⟨hmem, hlast⟩ := waitLoop_spec polls wevs hw
    refine ⟨wevs, hmem, hlast, ?_⟩
    by_cases hok : (destroyVolumes destroyOk p.title.name
        (p.storage.volumes.map (fun v => v.name))).2 = true
    · rw [if_pos hok] at h
      simp only [Option.some.injEq, Prod.mk.injEq] at h
      left
      rw [← h.1]
      have hdv := (destroyVolumes_spec destroyOk p.title.name
        (p.storage.volumes.map (fun v => v.name))).1 hok
      rw [hdv, List.map_map]
      rfl
    · rw [if_neg hok] at h
      simp only [Option.some.injEq, Prod.mk.injEq] at h
      right
      obtain ⟨k, hk, heq⟩ := (destroyVolumes_spec destroyOk p.title.name
        (p.storage.volumes.map (fun v => v.name))).2 (by simpa using hok)
      refine ⟨k, by simpa using hk, h.2.symm, ?_⟩
      rw [← h.1, heq, List.map_map]
      rfl

/-- C7 witness: one volume, a single terminal poll, all destroys succeed. -/
theorem c7_deprovision_ordering_witness :
    ∃ wevs : List DeprovEvent,
      (∀ e ∈ wevs, (∃ r, e = .pollUnit r) ∨ e = .sleep100ms) ∧
      (∃ r, wevs.getLast? = some (.pollUnit r) ∧
        (r = none ∨ ∃ s, r = some s ∧ s.stopsWait = true)) ∧
      [DeprovEvent.stopUnit "t-1.service", .pollUnit (some .Dead),
        .destroyVolume "t/v", .destroyRootDataset "t"]
        = DeprovEvent.stopUnit "t-1.service" :: wevs
          ++ [DeprovEvent.destroyVolume "t/v", .destroyRootDataset "t"] := by
  have h := c7_deprovision_ordering
    ⟨⟨"t", "1"⟩, "", [], .Container "img", ⟨[], [], none, none⟩,
      ⟨[⟨"v", 1, none, false, false⟩]⟩, ⟨false, false, [], false⟩, ⟨0, 0⟩⟩
    [some .Dead] (fun _ => true)
    [.stopUnit "t-1.service", .pollUnit (some .Dead),
      .destroyVolume "t/v", .destroyRootDataset "t"] true (by decide)
  obtain ⟨wevs, h1, h2, h3⟩ := h
  refine ⟨wevs, h1, h2, ?_⟩
  rcases h3 with h3 | ⟨k, _, hfalse, _⟩
  · simpa [PackageTitle.display] using h3
  · cases hfalse

theorem hasAdjacentPair_append_right (x y : String) (l m : List String)
    (h : hasAdjacentPair x y m = true) :
    hasAdjacentPair x y (l ++ m) = true := by
  induction l with
  | nil => simpa using h
  | cons a l ih =>
    cases hl : l ++ m with
    | nil =>
      rcases List.append_eq_nil.mp hl with ⟨_, rfl⟩
      simp [hasAdjacentPair] at h
    | cons b rest =>
      have hbr : hasAdjacentPair x y (b :: rest) = true := by rw [← hl]; exact ih
      show hasAdjacentPair x y (a :: (l ++ m)) = true
      rw [hl]
      simp [hasAdjacentPair, hbr]

theorem hasAdjacentPair_append_left (x y : String) (l m : List String)
    (h : hasAdjacentPair x y l = true) :
    hasAdjacentPair x y (l ++ m) = true := by
  induction l with
  | nil => simp [hasAdjacentPair] at h
  | cons a l ih =>
    cases l with
    | nil => simp [hasAdjacentPair] at h
    | cons b l' =>
      simp only [hasAdjacentPair, Bool.or_eq_true] at h
      rcases h with h | h
      · show hasAdjacentPair x y (a :: b :: (l' ++ m)) = true
        simp [hasAdjacentPair, h]
      · have := ih h
        show hasAdjacentPair x y (a :: b :: (l' ++ m)) = true
        simp only [hasAdjacentPair, Bool.or_eq_true]
        right
        simpa using this

theorem hasAdjacentPair_middle (x y : String) (l m : List String) :
    hasAdjacentPair x y (l ++ x :: y :: m) = true :=
  hasAdjacentPair_append_right x y l _ (by simp [hasAdjacentPair])

/-- C5 counterexample: the claim's pair-containment biconditional fails as
stated, because an internal network may itself be named "host": this package
has `host_net = false` and `internal_network = some "host"`, yet its argv
contains the adjacent pair `--network host`. -/
theorem c5_counterexample :
    generate_container_command
        ⟨⟨"t", "1"⟩, "", [], .Container "img", ⟨[], [], some "host", none⟩,
          ⟨[]⟩, ⟨false, false, [], false⟩, ⟨0, 0⟩⟩ "/vr"
      = .ok ["podman", "run", "--rm", "--name", "t-1", "--network", "host", "img"] ∧
    hasAdjacentPair "--network" "host"
      ["podman", "run", "--rm", "--name", "t-1", "--network", "host", "img"] = true ∧
    ¬(false = true ∧ (some "host" : Option String) = none) :=
  ⟨by decide, by decide, by simp⟩

/-- C5 (amended): for a container-sourced compiled package the generated argv
is exactly `podman run --rm --name <title>` followed by the hostname,
internal-network, forward/expose port, and volume segments, then `--pid
host`, then the arguments `--network host` appended exactly when `host_net`
is set and no internal network is set (the internal network wins on a
conflict), then `--privileged`, the `--cap-add` pairs, and the image
reference as the final element; consequently the argv begins with the fixed
five-element prefix, ends with the image, and contains the adjacent pair
`--network host` whenever `host_net` is set and no internal network is set
(the literal pair can additionally arise from user-chosen strings such as an
internal network named "host"). -/
theorem c5_container_argv (p : CompiledPackage) (volume_root image : String)
    (hsrc : p.source = .Container image) :
    generate_container_command p volume_root = .ok (
      ["podman", "run", "--rm", "--name", p.title.display]
      ++ (match p.networking.hostname with
          | some h => ["--hostname", h]
          | none => [])
      ++ (match p.networking.internal_network with
          | some n => ["--network", n]
          | none => [])
      ++ portArgs p.networking.forward_ports
      ++ portArgs p.networking.expose_ports
      ++ volumeArgs volume_root p.storage.volumes
      ++ (if p.system.host_pid then ["--pid", "host"] else [])
      ++ (if p.system.host_net && p.networking.internal_network.isNone
          then ["--network", "host"] else [])
      ++ (if p.system.privileged then ["--privileged"] else [])
      ++ capArgs p.system.capabilities
      ++ [image]) ∧
    (∀ argv, generate_container_command p volume_root = .ok argv →
      argv.take 5 = ["podman", "run", "--rm", "--name", p.title.display] ∧
      argv.getLast? = some image ∧
      (p.system.host_net = true → p.networking.internal_network = none →
        hasAdjacentPair "--network" "host" argv = true)) := by
  have hgen : generate_container_command p volume_root = .ok (
      ["podman", "run", "--rm", "--name", p.title.display]
      ++ (match p.networking.hostname with
          | some h => ["--hostname", h]
          | none => [])
      ++ (match p.networking.internal_network with
          | some n => ["--network", n]
          | none => [])
      ++ portArgs p.networking.forward_ports
      ++ portArgs p.networking.expose_ports
      ++ volumeArgs volume_root p.storage.volumes
      ++ (if p.system.host_pid then ["--pid", "host"] else [])
      ++ (if p.system.host_net && p.networking.internal_network.isNone
          then ["--network", "host"] else [])
      ++ (if p.system.privileged then ["--privileged"] else [])
      ++ capArgs p.system.capabilities
      ++ [image]) := by
    unfold generate_container_command
    rw [hsrc]
  refine ⟨hgen, ?_⟩
  intro argv hargv
  rw [hgen] at hargv
  simp only [Except.ok.injEq] at hargv
  subst hargv
  refine ⟨?_, ?_, ?_⟩
  · simp [List.append_assoc]
  · exact List.getLast?_concat _
  · intro hn hi
    have hseg : (if p.system.host_net && p.networking.internal_network.isNone
        then ["--network", "host"] else []) = ["--network", "host"] := by
      rw [hn, hi]
      rfl
    rw [hseg]
    apply hasAdjacentPair_append_left
    apply hasAdjacentPair_append_left
    apply hasAdjacentPair_append_left
    exact hasAdjacentPair_middle "--network" "host" _ []

/-- C5 witness: a concrete host-net container package. -/
theorem c5_container_argv_witness :
    generate_container_command
        ⟨⟨"t", "1"⟩, "", [], .Container "img", ⟨[], [], none, none⟩,
          ⟨[]⟩, ⟨false, true, [], false⟩, ⟨0, 0⟩⟩ "/vr"
      = .ok ["podman", "run", "--rm", "--name", "t-1", "--network", "host", "img"] := by
  rw [(c5_container_argv
      ⟨⟨"t", "1"⟩, "", [], .Container "img", ⟨[], [], none, none⟩,
        ⟨[]⟩, ⟨false, true, [], false⟩, ⟨0, 0⟩⟩ "/vr" "img" rfl).1]
  decide

theorem charListLt_irrefl (a : List Char) : charListLt a a = false := by
  induction a with
  | nil => rfl
  | cons c cs ih => simp [charListLt, lt_irrefl c, ih]

theorem charListLt_asymm : ∀ a b : List Char,
    charListLt a b = true → charListLt b a = false := by
  intro a
  induction a with
  | nil =>
    intro b h
    cases b with
    | nil => simp [charListLt] at h
    | cons y ys => simp [charListLt]
  | cons x xs ih =>
    intro b h
    cases b with
    | nil => simp [charListLt] at h
    | cons y ys =>
      simp only [charListLt] at h ⊢
      by_cases hxy : x < y
      · simp [hxy, lt_asymm hxy]
      · by_cases hyx : y < x
        · simp [hxy, hyx] at h
        · have hrec := ih ys (by simpa [hxy, hyx] using h)
          simp [hxy, hyx, hrec]

theorem charListLt_trans : ∀ a b c : List Char,
    charListLt a b = true → charListLt b c = true → charListLt a c = true := by
  intro a
  induction a with
  | nil =>
    intro b c hab hbc
    cases b with
    | nil => simp [charListLt] at hab
    | cons y ys =>
      cases c with
      | nil => simp [charListLt] at hbc
      | cons z zs => simp [charListLt]
  | cons x xs ih =>
    intro b c hab hbc
    cases b with
    | nil => simp [charListLt] at hab
    | cons y ys =>
      cases c with
      | nil => simp [charListLt] at hbc
      | cons z zs =>
        simp only [charListLt] at hab hbc ⊢
        by_cases hxy : x < y
        · by_cases hyz : y < z
          · simp [lt_trans hxy hyz]
          · by_cases hzy : z < y
            · simp [hyz, hzy] at hbc
            · have hyzeq : y = z := le_antisymm (not_lt.mp hzy) (not_lt.mp hyz)
              subst hyzeq
              simp [hxy]
        · by_cases hyx : y < x
          · simp [hxy, hyx] at hab
          · have hxyeq : x = y := le_antisymm (not_lt.mp hyx) (not_lt.mp hxy)
            subst hxyeq
            have hab' : charListLt xs ys = true := by simpa [hxy] using hab
            by_cases hxz : x < z
            · simp [hxz]
            · by_cases hzx : z < x
              · simp [hxz, hzx] at hbc
              · have hxzeq : x = z := le_antisymm (not_lt.mp hzx) (not_lt.mp hxz)
                subst hxzeq
                have hbc' : charListLt ys zs = true := by simpa [hxz] using hbc
                simp [hxz, ih ys zs hab' hbc']

theorem charListLt_tri : ∀ a b : List Char,
    charListLt a b = true ∨ a = b ∨ charListLt b a = true := by
  intro a
  induction a with
  | nil =>
    intro b
    cases b with
    | nil => exact Or.inr (Or.inl rfl)
    | cons y ys => exact Or.inl (by simp [charListLt])
  | cons x xs ih =>
    intro b
    cases b with
    | nil => exact Or.inr (Or.inr (by simp [charListLt]))
    | cons y ys =>
      by_cases hxy : x < y
      · exact Or.inl (by simp [charListLt, hxy])
      · by_cases hyx : y < x
        · exact Or.inr (Or.inr (by simp [charListLt, hyx]))
        · have hxyeq : x = y := le_antisymm (not_lt.mp hyx) (not_lt.mp hxy)
          subst hxyeq
          rcases ih ys with h | h | h
          · exact Or.inl (by simp [charListLt, lt_irrefl x, h])
          · exact Or.inr (Or.inl (by rw [h]))
          · exact Or.inr (Or.inr (by simp [charListLt, lt_irrefl x, h]))

theorem string_data_inj {a b : String} (h : a.data = b.data) : a = b :=
  congrArg String.mk h

theorem strLtB_irrefl (a : String) : strLtB a a = false := charListLt_irrefl a.data

theorem strLtB_asymm {a b : String} (h : strLtB a b = true) : strLtB b a = false :=
  charListLt_asymm a.data b.data h

theorem strLtB_trans {a b c : String} (hab : strLtB a b = true) (hbc : strLtB b c = true) :
    strLtB a c = true :=
  charListLt_trans a.data b.data c.data hab hbc

theorem strLtB_tri (a b : String) : strLtB a b = true ∨ a = b ∨ strLtB b a = true := by
  rcases charListLt_tri a.data b.data with h | h | h
  · exact Or.inl h
  · exact Or.inr (Or.inl (string_data_inj h))
  · exact Or.inr (Or.inr h)

theorem append_suffix_inj {v w s : String} (h : v ++ s = w ++ s) : v = w := by
  have hd : v.data ++ s.data = w.data ++ s.data := by
    have := congrArg String.data h
    simpa using this
  exact string_data_inj (List.append_cancel_right hd)

theorem verFileLe_total : ∀ a b : String, verFileLe a b ∨ verFileLe b a := by
  intro a b
  unfold verFileLe
  rcases strLtB_tri (a ++ ".json") (b ++ ".json") with h | h | h
  · exact Or.inl (strLtB_asymm h)
  · exact Or.inl (by rw [h]; exact strLtB_irrefl _)
  · exact Or.inr (strLtB_asymm h)

theorem verFileLe_trans : ∀ a b c : String, verFileLe a b → verFileLe b c → verFileLe a c := by
  intro a b c hab hbc
  unfold verFileLe at hab hbc ⊢
  by_contra hcon
  have hca : strLtB (c ++ ".json") (a ++ ".json") = true := by
    cases hlt : strLtB (c ++ ".json") (a ++ ".json") with
    | true => rfl
    | false => exact absurd hlt hcon
  rcases strLtB_tri (a ++ ".json") (b ++ ".json") with h | h | h
  · exact absurd (strLtB_trans hca h) (by simpa using hbc)
  · rw [h] at hca
    exact absurd hca (by simpa using hbc)
  · exact absurd h (by simpa using hab)

theorem dirLe_total : ∀ a b : String × List String, dirLe a b ∨ dirLe b a := by
  intro a b
  unfold dirLe
  rcases strLtB_tri a.1 b.1 with h | h | h
  · exact Or.inl (strLtB_asymm h)
  · exact Or.inl (by rw [h]; exact strLtB_irrefl _)
  · exact Or.inr (strLtB_asymm h)

theorem dirLe_trans : ∀ a b c : String × List String, dirLe a b → dirLe b c → dirLe a c := by
  intro a b c hab hbc
  unfold dirLe at hab hbc ⊢
  by_contra hcon
  have hca : strLtB c.1 a.1 = true := by
    cases hlt : strLtB c.1 a.1 with
    | true => rfl
    | false => exact absurd hlt hcon
  rcases strLtB_tri a.1 b.1 with h | h | h
  · exact absurd (strLtB_trans hca h) (by simpa using hbc)
  · rw [h] at hca
    exact absurd hca (by simpa using hbc)
  · exact absurd h (by simpa using hab)

theorem mem_registryGroups (inst : List PackageTitle) :
    ∀ (groups : List (String × List String)) (b : PackageStatus),
      b ∈ groups.foldr (fun item acc => listVersions inst item.1 item.2 ++ acc) [] →
      ∃ g ∈ groups, b ∈ listVersions inst g.1 g.2 := by
  intro groups
  induction groups with
  | nil => intro b h; simp at h
  | cons g gs ih =>
    intro b h
    rcases List.mem_append.mp h with h1 | h1
    · exact ⟨g, List.mem_cons_self _ _, h1⟩
    · obtain ⟨g', hg', hb⟩ := ih b h1
      exact ⟨g', List.mem_cons_of_mem _ hg', hb⟩

theorem name_of_mem_listVersions (inst : List PackageTitle) (n : String)
    (stems : List String) (b : PackageStatus) (h : b ∈ listVersions inst n stems) :
    b.title.name = n := by
  unfold listVersions at h
  obtain ⟨v, _, rfl⟩ := List.mem_map.mp h
  rfl

theorem pairwise_listVersions (inst : List PackageTitle) (n : String) (stems : List String)
    (hnodup : stems.Nodup) :
    List.Pairwise
      (fun s t => strLtB s.title.name t.title.name = true ∨
        (s.title.name = t.title.name ∧
          strLtB (t.title.version ++ ".json") (s.title.version ++ ".json") = true))
      (listVersions inst n stems) := by
  haveI : IsTotal String verFileLe := ⟨verFileLe_total⟩
  haveI : IsTrans String verFileLe := ⟨verFileLe_trans⟩
  have hsorted : List.Pairwise verFileLe (List.insertionSort verFileLe stems) :=
    List.sorted_insertionSort verFileLe stems
  have hnodup' : (List.insertionSort verFileLe stems).Nodup :=
    ((List.perm_insertionSort verFileLe stems).nodup_iff).mpr hnodup
  have hstrict : List.Pairwise
      (fun v w => strLtB (v ++ ".json") (w ++ ".json") = true)
      (List.insertionSort verFileLe stems) := by
    refine (hsorted.and hnodup').imp ?_
    rintro v w ⟨hle, hne⟩
    rcases strLtB_tri (v ++ ".json") (w ++ ".json") with h | h | h
    · exact h
    · exact absurd (append_suffix_inj h) hne
    · exact absurd h (by simpa [verFileLe] using hle)
  unfold listVersions
  rw [List.pairwise_map, List.pairwise_reverse]
  refine hstrict.imp ?_
  intro v w h
  exact Or.inr ⟨rfl, h⟩

theorem pairwise_registryGroups (inst : List PackageTitle) :
    ∀ groups : List (String × List String),
      List.Pairwise (fun a b => strLtB a.1 b.1 = true) groups →
      (∀ p ∈ groups, p.2.Nodup) →
      List.Pairwise
        (fun s t => strLtB s.title.name t.title.name = true ∨
          (s.title.name = t.title.name ∧
            strLtB (t.title.version ++ ".json") (s.title.version ++ ".json") = true))
        (groups.foldr (fun item acc => listVersions inst item.1 item.2 ++ acc) []) := by
  intro groups
  induction groups with
  | nil => intro _ _; exact List.Pairwise.nil
  | cons g gs ih =>
    intro hp hn
    obtain ⟨hg_rest, hp_rest⟩ := List.pairwise_cons.mp hp
    show List.Pairwise _ (listVersions inst g.1 g.2
      ++ gs.foldr (fun item acc => listVersions inst item.1 item.2 ++ acc) [])
    rw [List.pairwise_append]
    refine ⟨pairwise_listVersions inst g.1 g.2 (hn g (List.mem_cons_self _ _)),
      ih hp_rest (fun p hp' => hn p (List.mem_cons_of_mem _ hp')), ?_⟩
    intro a ha b hb
    obtain ⟨g', hg', hb'⟩ := mem_registryGroups inst gs b hb
    left
    rw [name_of_mem_listVersions inst g.1 g.2 a ha,
      name_of_mem_listVersions inst g'.1 g'.2 b hb']
    exact hg_rest g' hg'

/-- C4 counterexample: with equal names, `PackageTitle::cmp` compares the
*smaller* version as smaller (ascending), not the greater as smaller; and
`Registry::list` sorts the `<version>.json` file names and reverses, which
is not version-descending when one version is a prefix of another:
with versions `1.2` and `1.2.3`, `1.2` is enumerated first even though
`1.2.3` is the greater (newer) version. -/
theorem c4_counterexample :
    PackageTitle.cmp ⟨"a", "1"⟩ ⟨"a", "2"⟩ = .lt ∧
    strLtB "1" "2" = true ∧
    registryList ⟨[("p", ["1.2", "1.2.3"])], []⟩ =
      [⟨⟨"p", "1.2"⟩, false⟩, ⟨⟨"p", "1.2.3"⟩, false⟩] ∧
    strLtB "1.2" "1.2.3" = true := by
  refine ⟨by decide, by decide, ?_, by decide⟩
  decide

/-- C4 (amended): for every pair of titles, the ordering is by name
ascending and then by version **ascending** (with equal names, the greater
version compares as greater); and `Registry::list` enumerates statuses
grouped by name ascending with, inside each name, the versions in
descending order of their `<version>.json` file names (which is
version-descending exactly when the file-name order agrees with the version
order, e.g. when no version is a prefix of another). -/
theorem c4_title_order_and_list (reg : RegistryFS)
    (hnames : (reg.packages.map Prod.fst).Nodup)
    (hvers : ∀ p ∈ reg.packages, p.2.Nodup) :
    (∀ a b : PackageTitle, a.name = b.name →
        PackageTitle.cmp a b = strCompare a.version b.version) ∧
    (∀ a b : PackageTitle, a.name = b.name → strLtB a.version b.version = true →
        PackageTitle.cmp a b = .lt) ∧
    (∀ a b : PackageTitle, strLtB a.name b.name = true → PackageTitle.cmp a b = .lt) ∧
    List.Pairwise
      (fun s t => strLtB s.title.name t.title.name = true ∨
        (s.title.name = t.title.name ∧
          strLtB (t.title.version ++ ".json") (s.title.version ++ ".json") = true))
      (registryList reg) := by
  have hcmp_eq : ∀ a b : PackageTitle, a.name = b.name →
      PackageTitle.cmp a b = strCompare a.version b.version := by
    intro a b hn
    unfold PackageTitle.cmp
    rw [hn]
    have : strCompare b.name b.name = .eq := by
      unfold strCompare
      simp [strLtB_irrefl]
    rw [this]
  refine ⟨hcmp_eq, ?_, ?_, ?_⟩
  · intro a b hn hv
    rw [hcmp_eq a b hn]
    unfold strCompare
    rw [hv]
    simp
  · intro a b hn
    unfold PackageTitle.cmp strCompare
    rw [hn]
    simp
  · haveI : IsTotal (String × List String) dirLe := ⟨dirLe_total⟩
    haveI : IsTrans (String × List String) dirLe := ⟨dirLe_trans⟩
    have hsorted : List.Pairwise dirLe (List.insertionSort dirLe reg.packages) :=
      List.sorted_insertionSort dirLe reg.packages
    have hperm := List.perm_insertionSort dirLe reg.packages
    have hnodup' : ((List.insertionSort dirLe reg.packages).map Prod.fst).Nodup :=
      ((hperm.map Prod.fst).nodup_iff).mpr hnames
    have hne : List.Pairwise (fun a b : String × List String => a.1 ≠ b.1)
        (List.insertionSort dirLe reg.packages) := by
      rw [List.Nodup, List.pairwise_map] at hnodup'
      exact hnodup'
    have hstrict : List.Pairwise (fun a b => strLtB a.1 b.1 = true)
        (List.insertionSort dirLe reg.packages) := by
      refine (hsorted.and hne).imp ?_
      rintro a b ⟨hle, hneq⟩
      rcases strLtB_tri a.1 b.1 with h | h | h
      · exact h
      · exact absurd h hneq
      · exact absurd h (by simpa [dirLe] using hle)
    have hvers' : ∀ p ∈ List.insertionSort dirLe reg.packages, p.2.Nodup :=
      fun p hp => hvers p (hperm.mem_iff.mp hp)
    exact pairwise_registryGroups reg.installedTitles _ hstrict hvers'

/-- C4 witness: a concrete two-version registry and concrete titles. -/
theorem c4_title_order_and_list_witness :
    PackageTitle.cmp ⟨"p", "1"⟩ ⟨"p", "2"⟩ = .lt ∧
    List.Pairwise
      (fun s t => strLtB s.title.name t.title.name = true ∨
        (s.title.name = t.title.name ∧
          strLtB (t.title.version ++ ".json") (s.title.version ++ ".json") = true))
      (registryList ⟨[("p", ["1", "2"])], []⟩) :=
  ⟨(c4_title_order_and_list ⟨[("p", ["1", "2"])], []⟩ (by decide)
      (by decide)).2.1 ⟨"p", "1"⟩ ⟨"p", "2"⟩ rfl (by decide),
   (c4_title_order_and_list ⟨[("p", ["1", "2"])], []⟩ (by decide)
      (by decide)).2.2.2⟩

theorem isNull_arr (xs : List Json) : (Json.arr xs).isNull = false := rfl

theorem isNull_encTI (t : TemplatedInput) : (encTI t).isNull = false := rfl

theorem isNull_encNetworking (n : Networking) : (encNetworking n).isNull = false := rfl

theorem isNull_encStorage (s : Storage) : (encStorage s).isNull = false := rfl

theorem isNull_encSystem (s : System) : (encSystem s).isNull = false := rfl

theorem isNull_encResources (r : Resources) : (encResources r).isNull = false := rfl

theorem decTI_encTI (t : TemplatedInput) : decTI (encTI t) = some t := rfl

theorem decTitle_encTitle (t : PackageTitle) : decTitle (encTitle t) = some t := rfl

theorem decSource_encSource (s : Source) : decSource (encSource s) = some s := by
  cases s <;> rfl

theorem decPortPair_encPortPair (p : TemplatedInput × TemplatedInput) :
    decPortPair (encPortPair p) = some p := rfl

theorem decInputType_encInputType (it : InputType) :
    decInputType (encInputType it) = some it := by
  cases it <;> rfl

theorem decPrompt_encPrompt (p : Prompt) : decPrompt (encPrompt p) = some p := by
  obtain ⟨t, q, it⟩ := p
  cases it <;> rfl

theorem decList_roundtrip {α : Type} (dec : Json → Option α) (enc : α → Json)
    (h : ∀ a : α, dec (enc a) = some a) :
    ∀ l : List α, decList dec (l.map enc) = some l := by
  intro l
  induction l with
  | nil => rfl
  | cons a rest ih => simp [List.map_cons, decList, h a, ih]

theorem decVolume_encVolume (v : Volume) : decVolume (encVolume v) = some v := by
  obtain ⟨n, s, mp, r, pr⟩ := v
  cases mp <;> rfl

theorem decStorage_encStorage (s : Storage) : decStorage (encStorage s) = some s := by
  obtain ⟨vols⟩ := s
  simp [encStorage, decStorage, getField, decArr,
    decList_roundtrip decVolume encVolume decVolume_encVolume]

theorem decSystem_encSystem (s : System) : decSystem (encSystem s) = some s := by
  obtain ⟨hp, hn, caps, pr⟩ := s
  simp [encSystem, decSystem, getField, decArr, decTI, encTI, decStr,
    decList_roundtrip decTI encTI decTI_encTI]

theorem decResources_encResources (r : Resources) :
    decResources (encResources r) = some r := rfl

theorem decNetworking_encNetworking (n : Networking) :
    decNetworking (encNetworking n) = some n := by
  obtain ⟨fp, ep, net, hn⟩ := n
  cases fp <;> cases ep <;> cases net <;> cases hn <;>
    simp [encNetworking, decNetworking, optField, decOptField, getField, decArr,
      decList_roundtrip decPortPair encPortPair decPortPair_encPortPair,
      decTI, encTI, decStr, Json.isNull]

set_option maxHeartbeats 3200000 in
theorem decSourcePackage_encSourcePackage (p : SourcePackage) :
    decSourcePackage (encSourcePackage p) = some { p with root := none } := by
  obtain ⟨t, d, dep, src, nw, st, sys, res, pr, rt⟩ := p
  cases dep <;> cases nw <;> cases st <;> cases sys <;> cases res <;> cases pr <;>
    simp [encSourcePackage, decSourcePackage, optField, decOptField, getField,
      decTitle_encTitle, decSource_encSource, decArr,
      decList_roundtrip decTitle encTitle decTitle_encTitle,
      decNetworking_encNetworking, decStorage_encStorage, decSystem_encSystem,
      decResources_encResources, isNull_arr,
      isNull_encNetworking, isNull_encStorage, isNull_encSystem, isNull_encResources,
      decList_roundtrip decPrompt encPrompt decPrompt_encPrompt]

/-- C6: writing a source package to the registry and loading it back by its
title's name and version yields the same package in every field except the
`root` annotation, which `load` sets to the registry root: write followed by
load is the identity modulo `root`. -/
theorem c6_registry_roundtrip (reg : PackageRegistry) (p : SourcePackage) :
    (reg.write p).load p.title.name p.title.version =
      some { p with root := some reg.root } := by
  unfold PackageRegistry.write PackageRegistry.load
  simp [getPackageFile, decSourcePackage_encSourcePackage]

/-- C10 witness: a fresh migrator over an empty filesystem persists its
default state, and `execute` on the no-more-migrations path preserves
agreement. -/
theorem c10_boundary_agreement_witness :
    agrees (Migrator.newWithRoot [] [] ⟨.absent, .absent⟩).1
      (Migrator.newWithRoot [] [] ⟨.absent, .absent⟩).2 ∧
    agrees ((⟨⟨0, []⟩, [], []⟩ : Migrator).execute ⟨.full ⟨0, []⟩, .absent⟩ []).1
      ((⟨⟨0, []⟩, [], []⟩ : Migrator).execute ⟨.full ⟨0, []⟩, .absent⟩ []).2.1 :=
  ⟨(c10_boundary_agreement.1 [] [] ⟨.absent, .absent⟩).1,
   c10_boundary_agreement.2.1 ⟨⟨0, []⟩, [], []⟩ ⟨.full ⟨0, []⟩, .absent⟩ [] rfl⟩

end Trunk
